import Mathlib

/-!
Verification of the Pixo grid-art engine (`pixelEngine` module).

The engine is a deterministic image-to-image transform.  We embed it
shallowly:

* JavaScript numbers are modelled as exact rationals (`ℚ`); the spec and
  claims describe the arithmetic formulas, not IEEE-754 rounding, and the
  byte quantisation a `Uint8ClampedArray` store performs is likewise
  elided: channel values stay exact rationals.
* An `ImageData`-style pixel buffer is an `Img`: a width, a height, and a
  flat RGBA data function `ℕ → ℚ` indexed by `(y * width + x) * 4 + channel`.
* The drawing surface (`CanvasRenderingContext2D`) is external to the
  engine; the observable effect of the cell loop is the sequence of
  pattern-renderer invocations, which we reify as a `List RenderCall`.
  An empty list means the output canvas holds exactly the flat
  background fill painted before the loop.
-/

namespace Pixo

/-- JavaScript `Math.round` on an exact rational: round half toward +∞,
i.e. `⌊q + 1/2⌋`. -/
def jsRound (q : ℚ) : ℤ := ⌊q + 1 / 2⌋

/-- The cell boundary computation of `convertToPixelArt`:
`Math.floor(i * cellSize)` where `cellSize = L / n` (`cellW = W / gridSize`,
`cellH = H / gridH` in the source). -/
def cellBound (L n : ℕ) (i : ℕ) : ℤ := ⌊(i : ℚ) * ((L : ℚ) / (n : ℚ))⌋

/-- Cell extent along one axis, as the source computes it:
`cw = Math.floor((gx + 1) * cellW) - x0`. -/
def cellExtent (L n : ℕ) (i : ℕ) : ℤ := cellBound L n (i + 1) - cellBound L n i

/-- Pixel `p` lies inside the half-open span of cell `i` along an axis. -/
def inCell (L n : ℕ) (i : ℕ) (p : ℕ) : Prop :=
  cellBound L n i ≤ (p : ℤ) ∧ (p : ℤ) < cellBound L n (i + 1)

instance (L n i p : ℕ) : Decidable (inCell L n i p) := by
  unfold inCell; infer_instance

/-- Grid row count of `convertToPixelArt`:
`gridH = Math.max(1, Math.round(gridSize * aspectRatio))` with
`aspectRatio = H / W`. -/
def gridRowsOf (W H gridSize : ℕ) : ℕ :=
  max 1 (jsRound ((gridSize : ℚ) * ((H : ℚ) / (W : ℚ)))).toNat

/-- A decoded pixel buffer (`ImageData`): immutable width and height, flat
RGBA channel data addressed by `(y * width + x) * 4 + channel`. -/
structure Img where
  width : ℕ
  height : ℕ
  data : ℕ → ℚ

/-- The seven pattern styles. -/
inductive PatternStyle where
  | lineH | lineV | cross | diagonal | dots | concentric | wave
deriving DecidableEq

/-- The `PixelSettings` record of the source. -/
structure PixelSettings where
  gridSize : ℕ
  pattern : PatternStyle
  lineWeight : ℚ
  contrast : ℚ
  brightness : ℚ
  sharpen : ℚ
  invert : Bool
  colorMode : Bool
  bgOpacity : ℚ

/-- `DEFAULT_SETTINGS` from the source. -/
def DEFAULT_SETTINGS : PixelSettings :=
  ⟨80, .lineH, 1, 0, 0, 0, false, false, 100⟩

/-- `Math.max(0, Math.min(255, v))` — the clamp used by the preprocessor. -/
def clamp255 (v : ℚ) : ℚ := max 0 (min 255 v)

/-- `applyBrightnessContrast`: in-place remap of every colour channel
(`i % 4 ≠ 3` skips alpha) of a buffer of length `len = 4 * width * height`
(always a multiple of 4 for an `ImageData`):
`clamp(factor * (v - 128) + 128 + b)` with `b = brightness * 2.55`,
`c = contrast / 100`, `factor = (1 + c) / (1.0001 - c)`. -/
def applyBrightnessContrast (data : ℕ → ℚ) (len : ℕ)
    (brightness contrast : ℚ) : ℕ → ℚ :=
  let b := brightness * 2.55
  let c := contrast / 100
  let factor := (1 + c) / (1.0001 - c)
  fun i =>
    if i < len ∧ i % 4 ≠ 3 then
      clamp255 (factor * (data i - 128) + 128 + b)
    else data i

/-- `applySharpen`: identity when `amount ≤ 0`; otherwise a fresh output
buffer (`new ImageData(w, h)`, zero-initialised) where each interior pixel's
three colour channels get the 4-tap Laplacian
`clamp(center + k * (4*center - up - down - left - right))`, `k = amount/100`,
all reads from the source buffer; interior alpha is forced to 255; the
border ring (first/last row and column) is copied from the source, all four
channels. -/
def applySharpen (img : Img) (amount : ℚ) : Img :=
  if amount ≤ 0 then img else
  ⟨img.width, img.height, fun i =>
    let w := img.width
    let h := img.height
    let p := i / 4
    let chN := i % 4
    let x := p % w
    let y := p / w
    if p < w * h then
      if x = 0 ∨ x = w - 1 ∨ y = 0 ∨ y = h - 1 then
        img.data i
      else if chN < 3 then
        let idx := (y * w + x) * 4
        let up := ((y - 1) * w + x) * 4
        let dn := ((y + 1) * w + x) * 4
        let lt := (y * w + x - 1) * 4
        let rt := (y * w + x + 1) * 4
        let center := img.data (idx + chN)
        clamp255 (center + amount / 100 *
          (4 * center - img.data (up + chN) - img.data (dn + chN)
            - img.data (lt + chN) - img.data (rt + chN)))
      else 255
    else 0⟩

/-- The pixel indices visited by the `regionStats` double loop:
`y` from `y0` to `y0 + ch`, `x` from `x0` to `x0 + cw`, index
`((y * imgW) + x) << 2`. -/
def regionIdxs (imgW x0 y0 cw ch : ℕ) : List ℕ :=
  (List.range ch).flatMap fun dy =>
    (List.range cw).map fun dx => ((y0 + dy) * imgW + (x0 + dx)) * 4

/-- Result record of `regionStats`. -/
structure RegionStatsResult where
  luminance : ℚ
  r : ℚ
  g : ℚ
  b : ℚ
deriving DecidableEq

/-- `regionStats`: accumulate BT.601 luma and per-channel sums over the
rectangle, count the samples; if `count == 0` return pure white, else
multiply the sums by `inv = 1 / count`. -/
def regionStats (data : ℕ → ℚ) (imgW x0 y0 cw ch : ℕ) : RegionStatsResult :=
  let idxs := regionIdxs imgW x0 y0 cw ch
  let count := idxs.length
  let sumL := (idxs.map fun i =>
    0.299 * data i + 0.587 * data (i + 1) + 0.114 * data (i + 2)).sum
  let sumR := (idxs.map fun i => data i).sum
  let sumG := (idxs.map fun i => data (i + 1)).sum
  let sumB := (idxs.map fun i => data (i + 2)).sum
  if count = 0 then ⟨255, 255, 255, 255⟩
  else
    let inv := 1 / (count : ℚ)
    ⟨sumL * inv, sumR * inv, sumG * inv, sumB * inv⟩

/-- Per-cell darkness of the engine loop:
`darkness = 1 - stats.luminance / 255`, then `darkness = 1 - darkness`
when `invert`. -/
def cellDarkness (data : ℕ → ℚ) (imgW x0 y0 cw ch : ℕ) (invert : Bool) : ℚ :=
  let d := 1 - (regionStats data imgW x0 y0 cw ch).luminance / 255
  if invert then 1 - d else d

/-- One pattern-renderer invocation: the arguments the engine hands to the
selected renderer for a cell that was not skipped. -/
structure RenderCall where
  gx : ℕ
  gy : ℕ
  x0 : ℕ
  y0 : ℕ
  cw : ℕ
  ch : ℕ
  darkness : ℚ
  lineThick : ℚ
deriving DecidableEq

/-- One iteration of the engine's cell loop: compute the cell bounds,
sample the region, derive darkness; `none` when `darkness < 0.03`
(the `continue`), otherwise the renderer invocation with
`lineThick = max(0.3, darkness * maxThick * lineWeight)`,
`maxThick = min(cw, ch) * 0.85`. -/
def cellCall (data : ℕ → ℚ) (W H gridSize gridH : ℕ) (invert : Bool)
    (lineWeight : ℚ) (gx gy : ℕ) : Option RenderCall :=
  let x0 := (cellBound W gridSize gx).toNat
  let y0 := (cellBound H gridH gy).toNat
  let cw := (cellBound W gridSize (gx + 1)).toNat - x0
  let ch := (cellBound H gridH (gy + 1)).toNat - y0
  let darkness := cellDarkness data W x0 y0 cw ch invert
  if darkness < 0.03 then none
  else
    let maxThick : ℚ := (min cw ch : ℕ) * 0.85
    let lineThick := max 0.3 (darkness * maxThick * lineWeight)
    some ⟨gx, gy, x0, y0, cw, ch, darkness, lineThick⟩

/-- The engine's full cell loop over an already-preprocessed working
buffer: `gy` over the rows, `gx` over the columns, keeping the renderer
invocations that were not skipped. -/
def renderCalls (img : Img) (s : PixelSettings) : List RenderCall :=
  let gridH := gridRowsOf img.width img.height s.gridSize
  (List.range gridH).flatMap fun gy =>
    (List.range s.gridSize).filterMap fun gx =>
      cellCall img.data img.width img.height s.gridSize gridH
        s.invert s.lineWeight gx gy

/-- The brightness/contrast step as gated inside `convertToPixelArt`:
`if (brightness !== 0 || contrast !== 0) applyBrightnessContrast(...)` —
applied in place on the working copy only when one of them is non-zero. -/
def bcStage (src : Img) (brightness contrast : ℚ) : Img :=
  if brightness ≠ 0 ∨ contrast ≠ 0 then
    ⟨src.width, src.height,
      applyBrightnessContrast src.data (4 * (src.width * src.height))
        brightness contrast⟩
  else src

/-- The sharpen stage of the pipeline: run only when `sharpen > 0`. -/
def preprocessedData (src : Img) (s : PixelSettings) : Img :=
  let img0 := bcStage src s.brightness s.contrast
  if s.sharpen > 0 then applySharpen img0 s.sharpen else img0

/-- The run metadata of a `ConversionResult`. -/
structure GridMeta where
  gridCols : ℕ
  gridRows : ℕ
  totalCells : ℕ
deriving DecidableEq

/-- The metadata `convertToPixelArt` returns:
`gridCols = gridSize`, `gridRows = gridH`, `totalCells = gridSize * gridH`. -/
def convertMeta (src : Img) (s : PixelSettings) : GridMeta :=
  let gridH := gridRowsOf src.width src.height s.gridSize
  ⟨s.gridSize, gridH, s.gridSize * gridH⟩

/-- Observable outcome of one `convertToPixelArt` call with the source
canvas state threaded explicitly: the source canvas pixels after the call,
the returned metadata, and the renderer invocations issued against the
(separate) output canvas. -/
structure ConversionOutput where
  sourceAfter : Img
  meta : GridMeta
  calls : List RenderCall

/-- `convertToPixelArt` with state passing made explicit.  `getImageData`
returns a fresh copy of the source canvas pixels; brightness/contrast
mutates that copy in place, sharpening allocates a further buffer; the
pattern strokes go to a newly created output canvas.  No operation ever
writes back to `sourceCanvas` (there is no `putImageData`/`drawImage`
targeting it), so the source state is returned unchanged. -/
def convertToPixelArt (src : Img) (s : PixelSettings) : ConversionOutput :=
  let copied : Img := ⟨src.width, src.height, src.data⟩
  let work := preprocessedData copied s
  ⟨src, convertMeta src s, renderCalls work s⟩

/-- `exportAtScale`: resample the source into a fresh canvas of size
`round(width * scale) × round(height * scale)` (the resampled pixel data is
produced by the external `drawImage`, taken here as a parameter), then run
`convertToPixelArt` unchanged on it. -/
def exportAtScale (src : Img) (s : PixelSettings) (scale : ℚ)
    (resampled : ℕ → ℚ) : ConversionOutput :=
  convertToPixelArt
    ⟨(jsRound ((src.width : ℚ) * scale)).toNat,
     (jsRound ((src.height : ℚ) * scale)).toNat, resampled⟩ s

/-! ## Helper lemmas -/

/-- `Math.floor(i * (L / n))` agrees with natural-number division `i * L / n`. -/
lemma cellBound_natDiv (L n i : ℕ) : cellBound L n i = ((i * L / n : ℕ) : ℤ) := by
  unfold cellBound
  rw [show (i : ℚ) * ((L : ℚ) / (n : ℚ)) = ((i * L : ℕ) : ℚ) / ((n : ℕ) : ℚ) by
    push_cast; ring]
  rw [Rat.floor_natCast_div_natCast]
  simp [Int.ofNat_div]

lemma cellBound_nonneg (L n i : ℕ) : 0 ≤ cellBound L n i := by
  rw [cellBound_natDiv]; exact Int.natCast_nonneg _

/-- Along one axis the cell extents telescope to the full length. -/
lemma sum_cellExtent (L n : ℕ) (hn : 0 < n) :
    (∑ i ∈ Finset.range n, cellExtent L n i) = (L : ℤ) := by
  have hn' : (n : ℚ) ≠ 0 := Nat.cast_ne_zero.mpr hn.ne'
  unfold cellExtent
  rw [Finset.sum_range_sub (fun i => cellBound L n i)]
  unfold cellBound
  rw [show (n : ℚ) * ((L : ℚ) / (n : ℚ)) = (L : ℚ) by field_simp]
  simp

/-- Each pixel coordinate below `L` lies in exactly one of the `n` cells. -/
lemma cell_partition (L n : ℕ) (hL : 0 < L) (hn : 0 < n) (p : ℕ) (hp : p < L) :
    ∃! i, i < n ∧ inCell L n i p := by
  have key : ∀ i, inCell L n i p ↔ i * L / n ≤ p ∧ p + 1 ≤ (i + 1) * L / n := by
    intro i
    unfold inCell
    rw [cellBound_natDiv, cellBound_natDiv]
    constructor
    · rintro ⟨h1, h2⟩
      exact ⟨by exact_mod_cast h1, by exact_mod_cast h2⟩
    · rintro ⟨h1, h2⟩
      exact ⟨by exact_mod_cast h1, by exact_mod_cast h2⟩
  have mono : ∀ a b : ℕ, a ≤ b → a * L / n ≤ b * L / n := fun a b hab =>
    Nat.div_le_div_right (Nat.mul_le_mul_right L hab)
  set i0 := (n * (p + 1) - 1) / L with hi0
  have hpos : 1 ≤ n * (p + 1) := Nat.mul_pos hn (Nat.succ_pos p)
  have hcomm : n * (p + 1) = (p + 1) * n := Nat.mul_comm _ _
  have hfloor : i0 * L ≤ n * (p + 1) - 1 := Nat.div_mul_le_self _ _
  have hceil : n * (p + 1) - 1 < (i0 + 1) * L := by
    have hmod := Nat.div_add_mod (n * (p + 1) - 1) L
    rw [← hi0] at hmod
    have hlt : (n * (p + 1) - 1) % L < L := Nat.mod_lt _ hL
    have hexp : (i0 + 1) * L = i0 * L + L := by ring
    have hLi : L * i0 = i0 * L := Nat.mul_comm _ _
    omega
  have hA : i0 < n := by
    rw [hi0, Nat.div_lt_iff_lt_mul hL]
    have : n * (p + 1) ≤ n * L := Nat.mul_le_mul_left n hp
    omega
  have hB : i0 * L / n ≤ p := by
    have h3 : i0 * L < (p + 1) * n := by omega
    have := (Nat.div_lt_iff_lt_mul hn).mpr h3
    omega
  have hC : p + 1 ≤ (i0 + 1) * L / n := by
    rw [Nat.le_div_iff_mul_le hn]
    omega
  refine ⟨i0, ⟨hA, (key i0).mpr ⟨hB, hC⟩⟩, ?_⟩
  rintro j ⟨hj, hcell⟩
  obtain ⟨hj1, hj2⟩ := (key j).mp hcell
  by_contra hne
  rcases Nat.lt_or_ge j i0 with hlt | hge
  · have : (j + 1) * L / n ≤ i0 * L / n := mono _ _ hlt
    omega
  · have hlt2 : i0 < j := lt_of_le_of_ne hge (Ne.symm hne)
    have : (i0 + 1) * L / n ≤ j * L / n := mono _ _ hlt2
    omega

lemma gridRowsOf_pos (W H g : ℕ) : 0 < gridRowsOf W H g :=
  Nat.lt_of_lt_of_le Nat.zero_lt_one (le_max_left _ _)

lemma sum_map_range (n : ℕ) (f : ℕ → ℚ) :
    ((List.range n).map f).sum = ∑ i ∈ Finset.range n, f i := by
  induction n with
  | zero => simp
  | succ k ih => simp [List.range_succ, Finset.sum_range_succ, ih]

lemma regionIdxs_succ (imgW x0 y0 cw ch : ℕ) :
    regionIdxs imgW x0 y0 cw (ch + 1) =
      regionIdxs imgW x0 y0 cw ch ++
        (List.range cw).map (fun dx => ((y0 + ch) * imgW + (x0 + dx)) * 4) := by
  unfold regionIdxs
  rw [List.range_succ, List.flatMap_append]
  simp

/-- The sampler visits `ch * cw` pixels: `count = ch * cw`. -/
lemma regionIdxs_length (imgW x0 y0 cw ch : ℕ) :
    (regionIdxs imgW x0 y0 cw ch).length = ch * cw := by
  induction ch with
  | zero => simp [regionIdxs]
  | succ k ih =>
    rw [regionIdxs_succ, List.length_append, ih, List.length_map,
      List.length_range]
    ring

/-- The fold over the visited pixels is the double sum over the rectangle. -/
lemma regionIdxs_map_sum (imgW x0 y0 cw ch : ℕ) (f : ℕ → ℚ) :
    ((regionIdxs imgW x0 y0 cw ch).map f).sum =
      ∑ dy ∈ Finset.range ch, ∑ dx ∈ Finset.range cw,
        f (((y0 + dy) * imgW + (x0 + dx)) * 4) := by
  induction ch with
  | zero => simp [regionIdxs]
  | succ k ih =>
    rw [regionIdxs_succ, List.map_append, List.sum_append, ih,
      Finset.sum_range_succ, List.map_map, sum_map_range]
    rfl

/-- A uniformly white buffer samples to luminance 255 over any rectangle,
degenerate or not. -/
lemma regionStats_white (imgW x0 y0 cw ch : ℕ) :
    (regionStats (fun _ => (255 : ℚ)) imgW x0 y0 cw ch).luminance = 255 := by
  have hsum : ∀ l : List ℕ, (l.map fun _ =>
      (0.299 : ℚ) * 255 + 0.587 * 255 + 0.114 * 255).sum = l.length * 255 := by
    intro l
    induction l with
    | nil => simp
    | cons a t ih =>
      simp only [List.map_cons, List.sum_cons, ih, List.length_cons]
      push_cast
      ring
  simp only [regionStats]
  split
  · rfl
  · next h =>
    simp only [hsum]
    have hc : ((regionIdxs imgW x0 y0 cw ch).length : ℚ) ≠ 0 := by
      exact_mod_cast h
    field_simp

/-! ## Claims -/

/-- C1: for every source buffer of positive width `W` and height `H` and
every positive `gridColumns` value, the per-cell integer bounds
`floor(index * cellSize)` to `floor((index+1) * cellSize)` partition the
buffer exactly: the cell widths of a row sum to `W`, the cell heights of a
column sum to `H`, consecutive cells share a boundary, and every pixel lies
in exactly one cell (no gap, no overlap). -/
theorem grid_cells_tile_exactly (W H g : ℕ) (hW : 0 < W) (hH : 0 < H)
    (hg : 0 < g) :
    ((∑ gx ∈ Finset.range g, cellExtent W g gx) = (W : ℤ)) ∧
    ((∑ gy ∈ Finset.range (gridRowsOf W H g),
        cellExtent H (gridRowsOf W H g) gy) = (H : ℤ)) ∧
    (∀ i : ℕ, cellBound W g i + cellExtent W g i = cellBound W g (i + 1)) ∧
    (∀ px py : ℕ, px < W → py < H →
      ∃! cell : ℕ × ℕ, cell.1 < g ∧ cell.2 < gridRowsOf W H g ∧
        inCell W g cell.1 px ∧ inCell H (gridRowsOf W H g) cell.2 py) := by
  have hR : 0 < gridRowsOf W H g := gridRowsOf_pos W H g
  refine ⟨sum_cellExtent W g hg, sum_cellExtent H _ hR, ?_, ?_⟩
  · intro i; unfold cellExtent; ring
  · intro px py hpx hpy
    obtain ⟨ix, hix, hux⟩ := cell_partition W g hW hg px hpx
    obtain ⟨iy, hiy, huy⟩ := cell_partition H _ hH hR py hpy
    refine ⟨⟨ix, iy⟩, ⟨hix.1, hiy.1, hix.2, hiy.2⟩, ?_⟩
    rintro ⟨jx, jy⟩ ⟨h1, h2, h3, h4⟩
    have ex := hux jx ⟨h1, h3⟩
    have ey := huy jy ⟨h2, h4⟩
    simp only [Prod.mk.injEq]
    exact ⟨ex, ey⟩

/-- Witness for C1 at `W = 4`, `H = 2`, `gridColumns = 3`. -/
theorem grid_cells_tile_exactly_witness :
    ((0 : ℕ) < 4 ∧ (0 : ℕ) < 2 ∧ (0 : ℕ) < 3) ∧
    (∑ gx ∈ Finset.range 3, cellExtent 4 3 gx) = (4 : ℤ) :=
  ⟨⟨by decide, by decide, by decide⟩,
    (grid_cells_tile_exactly 4 2 3 (by decide) (by decide) (by decide)).1⟩

/-- C3: with `contrast = 0` and `brightness = 0` the brightness/contrast
preprocessing step is skipped entirely, so the buffer handed to the rest of
the pipeline is bit-identical to the input buffer. -/
theorem bc_neutral_identity (src : Img) : bcStage src 0 0 = src := by
  simp [bcStage]

/-- C8: the non-inverted darkness of a cell is `1 - luminance / 255`, and
with `invert = true` the computed darkness of the same cell in the same
pass is exactly `1 - d` where `d` is the non-inverted darkness. -/
theorem darkness_invert_relation (data : ℕ → ℚ) (imgW x0 y0 cw ch : ℕ) :
    cellDarkness data imgW x0 y0 cw ch false
        = 1 - (regionStats data imgW x0 y0 cw ch).luminance / 255 ∧
    cellDarkness data imgW x0 y0 cw ch true
        = 1 - cellDarkness data imgW x0 y0 cw ch false := by
  constructor <;> simp [cellDarkness]

/-- C2: for every sharpen `amount > 0`, every interior pixel and each of
the three colour channels, the sharpened value is
`clamp(center + (amount/100) * (4*center - up - down - left - right), 0, 255)`
with the centre and the four 4-connected neighbours all read from the
original (pre-sharpen) buffer. -/
theorem sharpen_interior_formula (img : Img) (amount : ℚ) (x y chN : ℕ)
    (hA : 0 < amount) (hx1 : 1 ≤ x) (hx2 : x < img.width - 1)
    (hy1 : 1 ≤ y) (hy2 : y < img.height - 1) (hch : chN < 3) :
    (applySharpen img amount).data ((y * img.width + x) * 4 + chN) =
      clamp255 (img.data ((y * img.width + x) * 4 + chN) + amount / 100 *
        (4 * img.data ((y * img.width + x) * 4 + chN)
          - img.data (((y - 1) * img.width + x) * 4 + chN)
          - img.data (((y + 1) * img.width + x) * 4 + chN)
          - img.data ((y * img.width + x - 1) * 4 + chN)
          - img.data ((y * img.width + x + 1) * 4 + chN))) := by
  rcases img with ⟨w, h, data⟩
  dsimp only at hx2 hy2 ⊢
  have hxw : x < w := by omega
  have hyh : y < h := by omega
  unfold applySharpen
  rw [if_neg (not_le.mpr hA)]
  dsimp only
  have hp : ((y * w + x) * 4 + chN) / 4 = y * w + x := by omega
  have hm : ((y * w + x) * 4 + chN) % 4 = chN := by omega
  rw [hp, hm]
  have hxmod : (y * w + x) % w = x := by
    rw [Nat.mul_comm y w, Nat.mul_add_mod]
    exact Nat.mod_eq_of_lt hxw
  have hydiv : (y * w + x) / w = y := by
    rw [Nat.mul_comm y w, Nat.mul_add_div (by omega)]
    rw [Nat.div_eq_of_lt hxw]
    omega
  rw [hxmod, hydiv]
  have hlt : y * w + x < w * h := by
    have h1 : (y + 1) * w ≤ h * w := Nat.mul_le_mul_right w (by omega)
    have h2 : (y + 1) * w = y * w + w := by ring
    have h3 : h * w = w * h := Nat.mul_comm _ _
    omega
  rw [if_pos hlt]
  have hborder : ¬(x = 0 ∨ x = w - 1 ∨ y = 0 ∨ y = h - 1) := by
    push_neg
    exact ⟨by omega, by omega, by omega, by omega⟩
  rw [if_neg hborder, if_pos hch]

/-- Witness for C2: a 3×3 image with `data i = i`, `amount = 50`, interior
pixel `(1,1)`, channel 0: the Laplacian term vanishes and the output equals
the centre value 16. -/
theorem sharpen_interior_formula_witness :
    (0 : ℚ) < 50 ∧
      (applySharpen ⟨3, 3, fun i => (i : ℚ)⟩ 50).data 16 = 16 := by
  have h := sharpen_interior_formula ⟨3, 3, fun i => (i : ℚ)⟩ 50 1 1 0
    (by norm_num) (by norm_num) (by norm_num) (by norm_num) (by norm_num)
  refine ⟨by norm_num, ?_⟩
  norm_num [clamp255] at h
  exact h

/-- C4: for every sharpen `amount > 0`, every border pixel (first/last row
or column) is copied unchanged from the source buffer, all four channels
including alpha. -/
theorem sharpen_border_copied (img : Img) (amount : ℚ) (x y chN : ℕ)
    (hA : 0 < amount) (hx : x < img.width) (hy : y < img.height)
    (hb : x = 0 ∨ x = img.width - 1 ∨ y = 0 ∨ y = img.height - 1)
    (hch : chN < 4) :
    (applySharpen img amount).data ((y * img.width + x) * 4 + chN) =
      img.data ((y * img.width + x) * 4 + chN) := by
  rcases img with ⟨w, h, data⟩
  dsimp only at hx hy hb ⊢
  unfold applySharpen
  rw [if_neg (not_le.mpr hA)]
  dsimp only
  have hp : ((y * w + x) * 4 + chN) / 4 = y * w + x := by omega
  have hm : ((y * w + x) * 4 + chN) % 4 = chN := by omega
  rw [hp, hm]
  have hxmod : (y * w + x) % w = x := by
    rw [Nat.mul_comm y w, Nat.mul_add_mod]
    exact Nat.mod_eq_of_lt hx
  have hydiv : (y * w + x) / w = y := by
    rw [Nat.mul_comm y w, Nat.mul_add_div (by omega)]
    rw [Nat.div_eq_of_lt hx]
    omega
  rw [hxmod, hydiv]
  have hlt : y * w + x < w * h := by
    have h1 : (y + 1) * w ≤ h * w := Nat.mul_le_mul_right w (by omega)
    have h2 : (y + 1) * w = y * w + w := by ring
    have h3 : h * w = w * h := Nat.mul_comm _ _
    omega
  rw [if_pos hlt, if_pos hb]

/-- Witness for C4: the 3×3 image with `data i = i`, `amount = 50`, corner
pixel `(0,0)`, alpha channel: copied through unchanged. -/
theorem sharpen_border_copied_witness :
    (0 : ℚ) < 50 ∧
      (applySharpen ⟨3, 3, fun i => (i : ℚ)⟩ 50).data 3 = 3 := by
  have h := sharpen_border_copied ⟨3, 3, fun i => (i : ℚ)⟩ 50 0 0 3
    (by norm_num) (by norm_num) (by norm_num) (Or.inl rfl) (by norm_num)
  refine ⟨by norm_num, ?_⟩
  norm_num at h
  exact h

/-- C5: the Region Sampler is total: a rectangle with zero sampled pixels
(`count == 0`, i.e. `cw * ch = 0`) yields luminance 255 and mean colour
`(255, 255, 255)` instead of dividing by zero, and a rectangle with
`count > 0` yields the arithmetic means of luma and of the three channels. -/
theorem regionStats_total_spec (data : ℕ → ℚ) (imgW x0 y0 cw ch : ℕ) :
    (cw * ch = 0 →
      regionStats data imgW x0 y0 cw ch = ⟨255, 255, 255, 255⟩) ∧
    (0 < cw * ch →
      regionStats data imgW x0 y0 cw ch =
        ⟨(∑ dy ∈ Finset.range ch, ∑ dx ∈ Finset.range cw,
            ((0.299 : ℚ) * data (((y0 + dy) * imgW + (x0 + dx)) * 4)
              + 0.587 * data (((y0 + dy) * imgW + (x0 + dx)) * 4 + 1)
              + 0.114 * data (((y0 + dy) * imgW + (x0 + dx)) * 4 + 2)))
          / ((cw : ℚ) * (ch : ℚ)),
         (∑ dy ∈ Finset.range ch, ∑ dx ∈ Finset.range cw,
            data (((y0 + dy) * imgW + (x0 + dx)) * 4)) / ((cw : ℚ) * (ch : ℚ)),
         (∑ dy ∈ Finset.range ch, ∑ dx ∈ Finset.range cw,
            data (((y0 + dy) * imgW + (x0 + dx)) * 4 + 1)) / ((cw : ℚ) * (ch : ℚ)),
         (∑ dy ∈ Finset.range ch, ∑ dx ∈ Finset.range cw,
            data (((y0 + dy) * imgW + (x0 + dx)) * 4 + 2)) / ((cw : ℚ) * (ch : ℚ))⟩) := by
  constructor
  · intro h0
    simp only [regionStats]
    rw [if_pos (by rw [regionIdxs_length, Nat.mul_comm]; omega)]
  · intro hpos
    simp only [regionStats]
    rw [if_neg (by rw [regionIdxs_length, Nat.mul_comm]; omega)]
    rw [regionIdxs_length, regionIdxs_map_sum, regionIdxs_map_sum,
      regionIdxs_map_sum, regionIdxs_map_sum]
    have hc : ((ch * cw : ℕ) : ℚ) = (cw : ℚ) * (ch : ℚ) := by push_cast; ring
    rw [hc]
    simp only [mul_one_div]

/-- Witness for C5: both branches at concrete inputs — a degenerate 0×2
rectangle returns pure white, a 1×1 rectangle returns the single pixel's
channels. -/
theorem regionStats_total_spec_witness :
    ((0 : ℕ) * 2 = 0 ∧
      regionStats (fun i => (i : ℚ)) 3 1 1 0 2 = ⟨255, 255, 255, 255⟩) ∧
    ((0 : ℕ) < 1 * 1 ∧
      (regionStats (fun i => (i : ℚ)) 3 1 1 1 1).r = 16) := by
  refine ⟨⟨rfl, (regionStats_total_spec (fun i => (i : ℚ)) 3 1 1 0 2).1 rfl⟩,
    ⟨by decide, ?_⟩⟩
  have h := (regionStats_total_spec (fun i => (i : ℚ)) 3 1 1 1 1).2 (by decide)
  rw [h]
  norm_num

/-- C6: for positive buffer dimensions, the row count equals
`max(1, round(gridColumns * height / width))`, hence is at least 1 for any
aspect ratio, and the returned `totalCells` equals
`gridColumns * gridRows`. -/
theorem grid_rows_meta (src : Img) (s : PixelSettings)
    (hW : 0 < src.width) (hH : 0 < src.height) :
    (convertMeta src s).gridRows =
        max 1 (jsRound ((s.gridSize : ℚ) * (src.height : ℚ)
          / (src.width : ℚ))).toNat ∧
    1 ≤ (convertMeta src s).gridRows ∧
    (convertMeta src s).totalCells = s.gridSize * (convertMeta src s).gridRows := by
  refine ⟨?_, ?_, rfl⟩
  · simp only [convertMeta, gridRowsOf]
    rw [mul_div_assoc]
  · simp only [convertMeta, gridRowsOf]
    exact le_max_left 1 _

/-- Witness for C6 on a 4×3 buffer with the default settings. -/
theorem grid_rows_meta_witness :
    ((0 : ℕ) < 4 ∧ (0 : ℕ) < 3) ∧
      (convertMeta ⟨4, 3, fun _ => 0⟩ DEFAULT_SETTINGS).totalCells =
        DEFAULT_SETTINGS.gridSize *
          (convertMeta ⟨4, 3, fun _ => 0⟩ DEFAULT_SETTINGS).gridRows :=
  ⟨⟨by decide, by decide⟩,
    (grid_rows_meta ⟨4, 3, fun _ => 0⟩ DEFAULT_SETTINGS (by decide)
      (by decide)).2.2⟩

/-- C7: a cell whose computed darkness is below the 0.03 threshold is
skipped entirely (no renderer invocation); and for the 200×100 all-white
buffer with `gridColumns = 10` and otherwise default settings, every cell
is skipped, so the engine issues zero renderer invocations and the output
canvas keeps the flat background fill. -/
theorem darkness_threshold_skip :
    (∀ (data : ℕ → ℚ) (W H g gH : ℕ) (invert : Bool) (lineWeight : ℚ)
        (gx gy : ℕ),
      cellDarkness data W (cellBound W g gx).toNat (cellBound H gH gy).toNat
          ((cellBound W g (gx + 1)).toNat - (cellBound W g gx).toNat)
          ((cellBound H gH (gy + 1)).toNat - (cellBound H gH gy).toNat)
          invert < 0.03 →
        cellCall data W H g gH invert lineWeight gx gy = none) ∧
    (convertToPixelArt ⟨200, 100, fun _ => 255⟩
        ⟨10, .lineH, 1, 0, 0, 0, false, false, 100⟩).calls = [] := by
  have hskip : ∀ (data : ℕ → ℚ) (W H g gH : ℕ) (invert : Bool)
      (lineWeight : ℚ) (gx gy : ℕ),
      cellDarkness data W (cellBound W g gx).toNat (cellBound H gH gy).toNat
          ((cellBound W g (gx + 1)).toNat - (cellBound W g gx).toNat)
          ((cellBound H gH (gy + 1)).toNat - (cellBound H gH gy).toNat)
          invert < 0.03 →
        cellCall data W H g gH invert lineWeight gx gy = none := by
    intro data W H g gH invert lineWeight gx gy h
    simp only [cellCall]
    rw [if_pos h]
  refine ⟨hskip, ?_⟩
  have hdark : ∀ x0 y0 cw ch : ℕ,
      cellDarkness (fun _ => (255 : ℚ)) 200 x0 y0 cw ch false = 0 := by
    intro x0 y0 cw ch
    simp only [cellDarkness, regionStats_white]
    norm_num
  have hcell : ∀ gx gy : ℕ,
      cellCall (fun _ => (255 : ℚ)) 200 100 10 5 false 1 gx gy = none := by
    intro gx gy
    simp only [cellCall]
    rw [if_pos]
    rw [hdark]
    norm_num
  have hrows : gridRowsOf 200 100 10 = 5 := by
    unfold gridRowsOf jsRound
    norm_num
    rfl
  show renderCalls (preprocessedData ⟨200, 100, fun _ => 255⟩ _) _ = []
  simp [preprocessedData, bcStage, renderCalls, hrows, hcell]

/-- Witness for C7: a concrete all-white 2×2 buffer, 2×2 grid, first cell:
its darkness 0 is below the threshold and the cell call is skipped. -/
theorem darkness_threshold_skip_witness :
    cellDarkness (fun _ => (255 : ℚ)) 2 (cellBound 2 2 0).toNat
        (cellBound 2 2 0).toNat
        ((cellBound 2 2 1).toNat - (cellBound 2 2 0).toNat)
        ((cellBound 2 2 1).toNat - (cellBound 2 2 0).toNat) false < 0.03 ∧
      cellCall (fun _ => (255 : ℚ)) 2 2 2 2 false 1 0 0 = none := by
  have h : cellDarkness (fun _ => (255 : ℚ)) 2 (cellBound 2 2 0).toNat
      (cellBound 2 2 0).toNat
      ((cellBound 2 2 1).toNat - (cellBound 2 2 0).toNat)
      ((cellBound 2 2 1).toNat - (cellBound 2 2 0).toNat) false < 0.03 := by
    simp only [cellDarkness, regionStats_white]
    norm_num
  exact ⟨h, darkness_threshold_skip.1 (fun _ => (255 : ℚ)) 2 2 2 2 false 1 0 0 h⟩

/-- Rounding `n * 2` is exact. -/
lemma jsRound_two_mul (n : ℕ) : (jsRound ((n : ℚ) * 2)).toNat = 2 * n := by
  unfold jsRound
  have hfl : ⌊(n : ℚ) * 2 + 1 / 2⌋ = (2 * n : ℤ) := by
    rw [Int.floor_eq_iff]
    constructor
    · push_cast; linarith
    · push_cast; linarith
  rw [hfl]
  omega

/-- C9: converting the buffer resized by scale factor 2 through the Scaled
Export Wrapper yields the same grid metadata — `totalCells`, column count
and row count — as converting the original buffer directly. -/
theorem exportAtScale_double_meta (src : Img) (s : PixelSettings)
    (resampled : ℕ → ℚ) :
    (exportAtScale src s 2 resampled).meta = (convertToPixelArt src s).meta := by
  show convertMeta ⟨(jsRound ((src.width : ℚ) * 2)).toNat,
      (jsRound ((src.height : ℚ) * 2)).toNat, resampled⟩ s = convertMeta src s
  rw [jsRound_two_mul, jsRound_two_mul]
  have hrat : (((2 * src.height : ℕ) : ℚ)) / (((2 * src.width : ℕ) : ℚ))
      = (src.height : ℚ) / (src.width : ℚ) := by
    push_cast
    rw [mul_div_mul_left]
    norm_num
  simp only [convertMeta, gridRowsOf, hrat]

/-- C10: `convertToPixelArt` never writes to the source canvas: the
brightness/contrast and sharpen mutations act on the fresh copy returned by
`getImageData`, and no operation targets the source, whose pixel state is
returned unchanged. -/
theorem convert_preserves_source (src : Img) (s : PixelSettings) :
    (convertToPixelArt src s).sourceAfter = src := rfl

end Pixo
